import Mathlib

/-
Verification development for the PII detection/masking engine
(pii_detector: config.py, detection.py, masking.py).

Conventions of the shallow embedding:
* Python `str` is modelled as Lean `String` / `List Char`; all inputs in the
  program are ASCII, so `Char.toLower`, `Char.isDigit`, `Char.isAlphanum`
  coincide with the Python behaviour on the relevant characters.
* Python `int` offsets are `Nat`; the sort key `-(end - start)` is computed
  in `Int` exactly as Python computes it on unbounded ints.
* Python `float` scores are modelled by exact rationals `ℚ`; the weights and
  the factors 0.5 / 0.1 appearing in `risk_score` are represented exactly.
  `round` is Python's banker's rounding (`pyRound`).
* Python's `sorted` is a stable sort; it is modelled by `List.insertionSort`
  (which is stable) with the corresponding key comparison.
* `itertools.count(1)` (the global synthetic counter) is threaded explicitly:
  functions that consume it take the next value `ctr : ℕ` and return the new
  counter state.
-/

/-- One detected PII occurrence (class `Entity` in detection.py).
The Python field `end` is a Lean keyword and is rendered `end_`. -/
structure Entity where
  label : String
  start : Nat
  end_ : Nat
  value : String
  confidence : ℚ
  sensitivity : String
  placeholder : Bool
deriving DecidableEq, Repr

/-- Span length `end - start` as Python computes it on ints. -/
def entLen (e : Entity) : ℤ := (e.end_ : ℤ) - (e.start : ℤ)

/-- The comparison underlying `sorted(entities, key=lambda e: (e.start, -(e.end - e.start)))`:
lexicographic order on the tuple `(start, -(end-start))`, i.e. start ascending,
span length descending. -/
def keyLe (a b : Entity) : Prop :=
  a.start < b.start ∨ (a.start = b.start ∧ entLen b ≤ entLen a)

instance : DecidableRel keyLe := fun a b => by
  unfold keyLe
  exact inferInstance

instance : IsTotal Entity keyLe := by
  constructor
  intro a b
  unfold keyLe entLen
  omega

instance : IsTrans Entity keyLe := by
  constructor
  intro a b c hab hbc
  unfold keyLe entLen at *
  omega

/-- `_overlaps(a, b)` from detection.py: `not (a.end <= b.start or b.end <= a.start)`. -/
def _overlaps (a b : Entity) : Bool :=
  !(decide (a.end_ ≤ b.start) || decide (b.end_ ≤ a.start))

/-- The loop body of `_deduplicate_entities`: scan the (already sorted) list,
keeping an entity iff it overlaps none of the previously kept ones
(`pruned.append(ent)` appends at the end). -/
def pruneLoop (pruned : List Entity) : List Entity → List Entity
  | [] => pruned
  | ent :: rest =>
    if pruned.any fun existing => _overlaps ent existing then pruneLoop pruned rest
    else pruneLoop (pruned ++ [ent]) rest

/-- `_deduplicate_entities` from detection.py: stable sort by
`(start, -(end-start))`, then the greedy keep-if-no-overlap scan. -/
def _deduplicate_entities (entities : List Entity) : List Entity :=
  pruneLoop [] (List.insertionSort keyLe entities)

/-- The spec's non-overlap relation on a pair of annotations:
`end_i ≤ start_j ∨ end_j ≤ start_i`. -/
def nonOverlapPair (a b : Entity) : Prop :=
  a.end_ ≤ b.start ∨ b.end_ ≤ a.start

instance : ∀ a b, Decidable (nonOverlapPair a b) := fun a b => by
  unfold nonOverlapPair
  exact inferInstance

/-- Modelled from the spec: the greedy scan of the Overlap Resolver, "keeping an
annotation only if it does not overlap any annotation already kept". -/
def greedyKeep (kept : List Entity) : List Entity → List Entity
  | [] => kept
  | e :: rest =>
    if kept.all fun a => decide (nonOverlapPair e a) then greedyKeep (kept ++ [e]) rest
    else greedyKeep kept rest

/-- The Python tuple key `(e.start, -(e.end - e.start))`. -/
def entKey (e : Entity) : ℤ × ℤ := ((e.start : ℤ), -(entLen e))

/-- `_score_sensitivity` from detection.py. -/
def _score_sensitivity (label : String) : String :=
  if ["aadhaar", "passport", "credit_card", "pan", "bank_account"].contains label then "high"
  else if ["email", "phone", "ip", "dob"].contains label then "medium"
  else "low"

/-- The base-weight table of `risk_score` (`weights.get(ent.label, 1)`). -/
def riskWeights (label : String) : ℚ :=
  if label = "aadhaar" then 35
  else if label = "pan" then 25
  else if label = "passport" then 30
  else if label = "credit_card" then 35
  else if label = "bank_account" then 30
  else if label = "email" then 5
  else if label = "phone" then 10
  else if label = "ip" then 1
  else if label = "dob" then 5
  else if label = "person_name" then 2
  else if label = "address" then 5
  else if label = "ifsc" then 5
  else 1

/-- The loop state of `risk_score`: running score, per-label occurrence counts
(`type_counts`, default 0), the `unique_types` set (as its indicator), and the
placeholder tally. -/
structure RiskState where
  score : ℚ
  counts : String → ℕ
  uniqueTypes : String → Bool
  placeholderCount : ℕ

/-- One iteration of the `for ent in entities` loop of `risk_score`; it only
reads `ent.label` and `ent.placeholder`, passed here as the pair `lp`.
Diminishing returns: the 1st occurrence of a label adds the full weight, the
2nd adds `w * 0.5`, the 3rd and later add `w * 0.1`. -/
def riskStep (st : RiskState) (lp : String × Bool) : RiskState :=
  if lp.2 then ⟨st.score, st.counts, st.uniqueTypes, st.placeholderCount + 1⟩
  else
    let cnt := st.counts lp.1 + 1
    let counts' := fun l => if l = lp.1 then cnt else st.counts l
    let unique' := fun l => if l = lp.1 then true else st.uniqueTypes l
    let w := riskWeights lp.1
    let score' :=
      if cnt = 1 then st.score + w
      else if cnt = 2 then st.score + w * (1 / 2)
      else st.score + w * (1 / 10)
    ⟨score', counts', unique', st.placeholderCount⟩

/-- The risk report returned by `risk_score` (the `compliance` dict is
flattened into four boolean fields). -/
structure RiskReport where
  score : ℤ
  bucket : String
  counts : String → ℕ
  placeholders : ℕ
  gdpr : Bool
  dpdp : Bool
  hipaa : Bool
  pci_dss : Bool

/-- Python's `round` on an exact rational: round half to even
(`Rat.floor q` is definitionally `⌊q⌋`). -/
def pyRound (q : ℚ) : ℤ :=
  if q - (q.floor : ℚ) < 1 / 2 then q.floor
  else if 1 / 2 < q - (q.floor : ℚ) then q.floor + 1
  else if q.floor % 2 = 0 then q.floor else q.floor + 1

/-- Steps 2-4 of `risk_score`: critical floor, combination boosters,
normalization/bucketing and compliance flags. -/
def riskFinish (st : RiskState) : RiskReport :=
  let score1 :=
    if ["aadhaar", "credit_card", "passport", "bank_account"].any st.uniqueTypes then
      max st.score 65
    else st.score
  let hasIdentity := st.uniqueTypes "person_name" && st.uniqueTypes "dob"
  let hasContact := ["address", "phone", "email"].any st.uniqueTypes
  let score2 := if hasIdentity && hasContact then score1 + 25 else score1
  let hasFinancial := ["credit_card", "bank_account"].any st.uniqueTypes
  let score3 := if hasFinancial && st.uniqueTypes "person_name" then score2 + 20 else score2
  let normalized : ℤ := min 100 (pyRound score3)
  let bucket :=
    if 80 ≤ normalized then "critical"
    else if 50 ≤ normalized then "high"
    else if 20 ≤ normalized then "medium"
    else "low"
  ⟨normalized, bucket, st.counts, st.placeholderCount,
    ["person_name", "address", "email", "ip", "dob"].any fun t => st.counts t != 0,
    ["aadhaar", "phone", "email", "pan", "bank_account"].any fun t => st.counts t != 0,
    ["person_name", "address", "dob"].any fun t => st.counts t != 0,
    ["credit_card"].any fun t => st.counts t != 0⟩

/-- `risk_score` from detection.py. -/
def risk_score (entities : List Entity) : RiskReport :=
  riskFinish (entities.foldl (fun st e => riskStep st (e.label, e.placeholder))
    ⟨0, fun _ => 0, fun _ => false, 0⟩)

/-- Python slicing `text[s:e]` for nonnegative bounds (clamping included). -/
def pySlice (cs : List Char) (s e : ℕ) : List Char := (cs.take e).drop s

/-- `FULL_TOKENS` from masking.py. -/
def fullTokens (label : String) : Option String :=
  if label = "email" then some "[EMAIL]"
  else if label = "phone" then some "[PHONE]"
  else if label = "credit_card" then some "[CARD]"
  else if label = "bank_account" then some "[BANK_ACCOUNT]"
  else if label = "aadhaar" then some "[AADHAAR]"
  else if label = "pan" then some "[PAN]"
  else if label = "passport" then some "[PASSPORT]"
  else if label = "person_name" then some "[NAME]"
  else if label = "address" then some "[ADDRESS]"
  else if label = "placeholder" then some "[PLACEHOLDER]"
  else none

/-- `_generic_mask` from masking.py (`if label and label in FULL_TOKENS`;
the empty string is falsy and is not a key, so both readings agree). -/
def _generic_mask (value : String) (label : Option String) : String :=
  match label with
  | some l =>
    match fullTokens l with
    | some tok => tok
    | none => "[REDACTED]"
  | none => "[REDACTED]"

/-- The reversed-scan loop of `_mask_digits_keep_tail`: `seen` is the number of
digits already passed (scanning from the end of the value), kept while
`digits_seen <= keep`. -/
def maskTailGo (keep seen : ℕ) : List Char → List Char
  | [] => []
  | c :: rest =>
    if c.isDigit then
      (if seen + 1 ≤ keep then c else '*') :: maskTailGo keep (seen + 1) rest
    else c :: maskTailGo keep seen rest

/-- `_mask_digits_keep_tail` from masking.py: keep the last `keep` digits,
mask earlier digits with `*`, preserve non-digits, scanning from the end. -/
def _mask_digits_keep_tail (value : String) (keep : ℕ) : String :=
  String.mk (maskTailGo keep 0 value.data.reverse).reverse

/-- Split `cs` at the first occurrence of `sep` (Python `split(sep, 1)`),
returning the parts before and after; `none` if `sep` does not occur. -/
def splitFirst (sep : Char) : List Char → Option (List Char × List Char)
  | [] => none
  | c :: rest =>
    if c = sep then some ([], rest)
    else match splitFirst sep rest with
      | some (u, d) => some (c :: u, d)
      | none => none

/-- `_mask_email` from masking.py. -/
def _mask_email (value : String) : String :=
  match splitFirst '@' value.data with
  | none => _generic_mask value (some "email")
  | some (user, domain) =>
    let maskedUser := if user.isEmpty then "***".data else user.take 1 ++ "***".data
    String.mk (maskedUser ++ '@' :: domain)

/-- `str(n)` for a natural number: decimal digits, most significant first. -/
def natDecimal (n : ℕ) : List Char :=
  if n = 0 then ['0'] else (Nat.digits 10 n).reverse.map Nat.digitChar

/-- `_pad_digits` from masking.py: `str(counter).rjust(length, "0")`,
truncated to the last `length` characters if longer (padding applies exactly
when the decimal is shorter, truncation exactly when it is longer). -/
def _pad_digits (counter length : ℕ) : List Char :=
  if (natDecimal counter).length < length then
    List.replicate (length - (natDecimal counter).length) '0' ++ natDecimal counter
  else if length < (natDecimal counter).length then
    (natDecimal counter).drop ((natDecimal counter).length - length)
  else natDecimal counter

/-- Zero-padding without truncation, Python's format spec `{n:0Nd}`. -/
def padFmt (n width : ℕ) : List Char :=
  let s := natDecimal n
  if s.length < width then List.replicate (width - s.length) '0' ++ s else s

/-- `int(d)` for a decimal digit character. -/
def charVal (c : Char) : ℕ := c.toNat - 48

/-- The summation loop of `_luhn_check_digit` over the reversed digit list:
the flag records `idx % 2 == 0`, the positions that get doubled (and reduced
by 9 when the double exceeds 9). -/
def luhnSum (dbl : Bool) : List ℕ → ℕ
  | [] => 0
  | d :: rest => (if dbl then (if 9 < 2 * d then 2 * d - 9 else 2 * d) else d) + luhnSum (!dbl) rest

/-- `_luhn_check_digit` from masking.py, returning the check digit value. -/
def _luhn_check_digit (number_without_check : List Char) : ℕ :=
  let digits := (number_without_check.map charVal).reverse
  let total := luhnSum true digits
  (10 - total % 10) % 10

/-- The rebuilding loop of `_regroup_like_original`: walk the original value,
fill digit slots from the synthetic digit iterator (`next(digits_iter, "")`
yields nothing once exhausted), copy non-digits; returns the rebuilt prefix
and the leftover synthetic digits. -/
def regroupGo : List Char → List Char → List Char × List Char
  | [], synth => ([], synth)
  | c :: rest, synth =>
    if c.isDigit then
      match synth with
      | [] => regroupGo rest []
      | d :: ds =>
        let p := regroupGo rest ds
        (d :: p.1, p.2)
    else
      let p := regroupGo rest synth
      (c :: p.1, p.2)

/-- `_regroup_like_original` from masking.py. -/
def _regroup_like_original (synth : List Char) (original : List Char) : List Char :=
  let p := regroupGo original synth
  let candidate := p.1 ++ p.2
  if candidate.any Char.isDigit then candidate else synth

/-- `_synthetic_card` from masking.py: a 15-digit body `"4" + pad(counter, 14)`,
its Luhn check digit appended, re-interleaved into the original's separators. -/
def _synthetic_card (counter : ℕ) (original : String) : String :=
  let base := '4' :: _pad_digits counter 14
  let check := _luhn_check_digit base
  let number := base ++ [Nat.digitChar check]
  String.mk (_regroup_like_original number original.data)

/-- `_synthetic_bank_account` from masking.py. -/
def _synthetic_bank_account (counter : ℕ) (original : String) : String :=
  let digitCount := (original.data.filter Char.isDigit).length
  let length := max 9 (min 18 (if digitCount = 0 then 12 else digitCount))
  String.mk (_regroup_like_original (_pad_digits counter length) original.data)

/-- `_synthetic_aadhaar` from masking.py. -/
def _synthetic_aadhaar (counter : ℕ) : String :=
  String.mk (natDecimal (2 + counter % 8) ++ _pad_digits counter 11)

/-- `_synthetic_pan` from masking.py. -/
def _synthetic_pan (counter : ℕ) : String :=
  String.mk ("ABCDE".data ++ _pad_digits counter 4 ++ [Char.ofNat ('A'.toNat + counter % 26)])

/-- `_synthetic_passport` from masking.py. -/
def _synthetic_passport (counter : ℕ) : String :=
  String.mk (Char.ofNat ('M'.toNat + counter % 10) :: _pad_digits counter 7)

/-- `_synthetic_phone` from masking.py. -/
def _synthetic_phone (counter : ℕ) : String :=
  String.mk ("+91-9".data ++ _pad_digits counter 9)

/-- `_synthetic_email` from masking.py (an empty split-off domain is falsy and
falls back to the default). -/
def _synthetic_email (counter : ℕ) (original : String) : String :=
  let domain :=
    match splitFirst '@' original.data with
    | some (_, d) => if d.isEmpty then "example.in".data else d
    | none => "example.in".data
  String.mk ("user".data ++ padFmt counter 4 ++ '@' :: domain)

/-- `_synthetic` from masking.py; `ctr` is the value the global counter yields
for this call, `ctr + 1` the new counter state. -/
def _synthetic (value label : String) (ctr : ℕ) : String × ℕ :=
  (if label = "credit_card" then _synthetic_card ctr value
   else if label = "bank_account" then _synthetic_bank_account ctr value
   else if label = "aadhaar" then _synthetic_aadhaar ctr
   else if label = "pan" then _synthetic_pan ctr
   else if label = "passport" then _synthetic_passport ctr
   else if label = "phone" then _synthetic_phone ctr
   else if label = "email" then _synthetic_email ctr value
   else if label = "person_name" then String.mk ("Person ".data ++ padFmt ctr 3)
   else if label = "address" then String.mk ("Address ".data ++ padFmt ctr 3)
   else if label = "placeholder" then String.mk ("PH_".data ++ padFmt ctr 4)
   else String.mk ("SYN_".data ++ label.toUpper.data ++ '_' :: natDecimal ctr),
   ctr + 1)

/-- `mask_value` from masking.py; only the `synthetic` mode touches the
counter. -/
def mask_value (value label mode : String) (ctr : ℕ) : String × ℕ :=
  if mode = "partial" then
    (if ["credit_card", "bank_account", "aadhaar"].contains label then
       _mask_digits_keep_tail value 4
     else if label = "phone" then _mask_digits_keep_tail value 3
     else if label = "email" then _mask_email value
     else _generic_mask value (some label), ctr)
  else if mode = "synthetic" then _synthetic value label ctr
  else (_generic_mask value (some label), ctr)

/-- The comparison of `sorted(entities, key=lambda e: e.start, reverse=True)`:
start descending, stability preserved. -/
def startGe (a b : Entity) : Prop := b.start ≤ a.start

instance : DecidableRel startGe := fun a b => by
  unfold startGe
  exact inferInstance

/-- The masking loop of `apply_masks`: for each surviving annotation splice
`masked[:start] + replacement + masked[end:]`; an annotation is skipped when
`allowed_labels` is truthy and does not contain its label, or when it is a
placeholder and `include_placeholders` is false. -/
def maskLoop (mode : String) (include_placeholders : Bool)
    (allowed_labels : Option (List String)) :
    List Entity → String → ℕ → String × ℕ
  | [], masked, ctr => (masked, ctr)
  | ent :: rest, masked, ctr =>
    if (match allowed_labels with
        | some ls => !ls.isEmpty && !ls.contains ent.label
        | none => false) then
      maskLoop mode include_placeholders allowed_labels rest masked ctr
    else if ent.placeholder && !include_placeholders then
      maskLoop mode include_placeholders allowed_labels rest masked ctr
    else
      let rc := mask_value ent.value ent.label mode ctr
      maskLoop mode include_placeholders allowed_labels rest
        (String.mk (masked.data.take ent.start ++ rc.1.data ++ masked.data.drop ent.end_)) rc.2

/-- `apply_masks` from masking.py: process annotations in descending `start`
order (stable), splicing replacements right-to-left. -/
def apply_masks (text : String) (entities : List Entity) (mode : String)
    (include_placeholders : Bool) (allowed_labels : Option (List String))
    (ctr : ℕ) : String × ℕ :=
  maskLoop mode include_placeholders allowed_labels
    (List.insertionSort startGe entities) text ctr

/-- The splice loop without any filtering, used to characterise which
annotations `apply_masks` actually masks. -/
def spliceAll (mode : String) : List Entity → String → ℕ → String × ℕ
  | [], masked, ctr => (masked, ctr)
  | ent :: rest, masked, ctr =>
    let rc := mask_value ent.value ent.label mode ctr
    spliceAll mode rest
      (String.mk (masked.data.take ent.start ++ rc.1.data ++ masked.data.drop ent.end_)) rc.2

/-- Modelled from the spec: "an annotation is skipped (left unmasked) if
`allowed_labels` is supplied and non-empty and the label is not in it, or if
the annotation is a placeholder and `include_placeholders` is false". -/
def maskSkipSpec (e : Entity) (include_placeholders : Bool)
    (allowed_labels : Option (List String)) : Prop :=
  (match allowed_labels with
   | some ls => ls ≠ [] ∧ e.label ∉ ls
   | none => False) ∨
  (e.placeholder = true ∧ include_placeholders = false)

instance : ∀ e i a, Decidable (maskSkipSpec e i a) := fun e i a => by
  unfold maskSkipSpec
  cases a <;> exact inferInstance

/-- One character-matching item of a regular expression: a literal, a range
`a-z` inside a class, the class `\d`, or the class `\s`. -/
inductive CS where
  | lit : Char → CS
  | crange : Char → Char → CS
  | digit : CS
  | space : CS
deriving DecidableEq, Repr

/-- Whether character `c` satisfies the item, honouring `re.IGNORECASE`
via `ic` (a character matches a cased literal/range if it or a case variant
does, as in Python's case-insensitive matching of ASCII). -/
def csMatch (ic : Bool) (s : CS) (c : Char) : Bool :=
  match s with
  | .lit a => c == a || (ic && (c.toLower == a.toLower))
  | .crange lo hi =>
    (decide (lo.toNat ≤ c.toNat) && decide (c.toNat ≤ hi.toNat)) ||
    (ic && ((decide (lo.toNat ≤ c.toLower.toNat) && decide (c.toLower.toNat ≤ hi.toNat)) ||
            (decide (lo.toNat ≤ c.toUpper.toNat) && decide (c.toUpper.toNat ≤ hi.toNat))))
  | .digit => c.isDigit
  | .space => c == ' ' || c == '\t' || c == '\n' || c == '\r' || c == '\x0b' || c == '\x0c'

/-- Abstract syntax of the regular-expression dialect used by the patterns in
config.py: literals, character classes, concatenation, leftmost-biased
alternation, greedy counted repetition `{lo,hi}` (`hi = none` unbounded),
capture groups, word boundary `\b`, negative lookahead `(?!...)`, the one
negative lookbehind used `(?<!\d)`, and `$`. -/
inductive RE where
  | eps : RE
  | lit : Char → RE
  | cls : List CS → RE
  | seq : RE → RE → RE
  | alt : RE → RE → RE
  | rep : RE → ℕ → Option ℕ → RE
  | grp : ℕ → RE → RE
  | wb : RE
  | nla : RE → RE
  | nlbd : RE
  | eos : RE
deriving Repr

/-- Word characters for `\b` (ASCII `\w`). -/
def isWordO : Option Char → Bool
  | none => false
  | some c => c.isAlphanum || c == '_'

/-- Result of a match attempt: end position, recorded capture-group spans
(latest first), and the scanner state (previous character, remaining input)
at the end of the match. -/
abbrev MRes := Option (ℕ × List (ℕ × ℕ × ℕ) × Option Char × List Char)

/-- Backtracking matcher in continuation-passing style, with Python `re`
semantics: leftmost-biased alternation, greedy repetition, boundaries relative
to the previous character `prev`. `fuel` bounds the number of reduction
steps; all concrete evaluations in this file stay far below the bound. -/
def reMatch (ic : Bool) :
    ℕ → RE → Option Char → List Char → ℕ → List (ℕ × ℕ × ℕ) →
    (Option Char → List Char → ℕ → List (ℕ × ℕ × ℕ) → MRes) → MRes
  | 0, _, _, _, _, _, _ => none
  | f + 1, re, prev, rest, pos, caps, k =>
    match re with
    | .eps => k prev rest pos caps
    | .lit c =>
      match rest with
      | [] => none
      | c' :: rs =>
        if c' == c || (ic && c'.toLower == c.toLower) then k (some c') rs (pos + 1) caps
        else none
    | .cls specs =>
      match rest with
      | [] => none
      | c' :: rs =>
        if specs.any fun s => csMatch ic s c' then k (some c') rs (pos + 1) caps
        else none
    | .seq a b =>
      reMatch ic f a prev rest pos caps fun p r ps cp => reMatch ic f b p r ps cp k
    | .alt a b =>
      match reMatch ic f a prev rest pos caps k with
      | some res => some res
      | none => reMatch ic f b prev rest pos caps k
    | .rep a lo hi =>
      if lo ≠ 0 then
        reMatch ic f a prev rest pos caps fun p r ps cp =>
          reMatch ic f (.rep a (lo - 1) (hi.map (· - 1))) p r ps cp k
      else if hi = some 0 then k prev rest pos caps
      else
        match reMatch ic f a prev rest pos caps
            (fun p r ps cp =>
              if ps = pos then none
              else reMatch ic f (.rep a 0 (hi.map (· - 1))) p r ps cp k) with
        | some res => some res
        | none => k prev rest pos caps
    | .grp i a =>
      reMatch ic f a prev rest pos caps fun p r ps cp => k p r ps ((i, pos, ps) :: cp)
    | .wb =>
      if isWordO prev != isWordO rest.head? then k prev rest pos caps else none
    | .nla a =>
      match reMatch ic f a prev rest pos caps (fun p r ps cp => some (ps, cp, p, r)) with
      | some _ => none
      | none => k prev rest pos caps
    | .nlbd =>
      match prev with
      | none => k prev rest pos caps
      | some p => if p.isDigit then none else k prev rest pos caps
    | .eos =>
      match rest with
      | [] => k prev rest pos caps
      | _ => none

/-- Fuel bound for one anchored match attempt. -/
def matchFuel : ℕ := 100000

/-- Try an anchored match of `re` at the current scanner position. -/
def tryMatch (ic : Bool) (re : RE) (prev : Option Char) (rest : List Char)
    (pos : ℕ) : MRes :=
  reMatch ic matchFuel re prev rest pos [] fun p r ps cp => some (ps, cp, p, r)

/-- The scanning loop of `finditer`: try every position left to right and
continue after the end of each (non-empty) match. -/
def findIterGo (ic : Bool) (re : RE) :
    ℕ → Option Char → List Char → ℕ → List (ℕ × ℕ × List (ℕ × ℕ × ℕ))
  | 0, _, _, _ => []
  | fuel + 1, prev, rest, pos =>
    match tryMatch ic re prev rest pos with
    | some (e, cp, p', r') =>
      if pos < e then (pos, e, cp) :: findIterGo ic re fuel p' r' e
      else
        (pos, e, cp) ::
          (match rest with
           | [] => []
           | c :: rs => findIterGo ic re fuel (some c) rs (pos + 1))
    | none =>
      match rest with
      | [] => []
      | c :: rs => findIterGo ic re fuel (some c) rs (pos + 1)

/-- `pattern.finditer(text)`: the list of `(start, end, captures)` of all
non-overlapping matches, scanned left to right. -/
def findIter (ic : Bool) (re : RE) (cs : List Char) :
    List (ℕ × ℕ × List (ℕ × ℕ × ℕ)) :=
  findIterGo ic re (cs.length + 1) none cs 0

/-- Concatenation of a list of regular expressions. -/
def seqL : List RE → RE
  | [] => .eps
  | [r] => r
  | r :: rs => .seq r (seqL rs)

/-- Alternation of a non-empty list, leftmost-biased. -/
def altL : List RE → RE
  | [] => .eps
  | [r] => r
  | r :: rs => .alt r (altL rs)

/-- A literal string. -/
def strRE (s : String) : RE := seqL (s.data.map RE.lit)

/-- `[0-9]`. -/
def d09 : RE := .cls [.crange '0' '9']

/-- `\d`. -/
def dcls : RE := .cls [.digit]

/-- `\s`. -/
def spc : RE := .cls [.space]

/-- `[-\s]`. -/
def dashSp : RE := .cls [.lit '-', .space]

/-- `r?` -/
def opt (r : RE) : RE := .rep r 0 (some 1)

/-- `r*` -/
def star (r : RE) : RE := .rep r 0 none

/-- `r+` -/
def plus (r : RE) : RE := .rep r 1 none

/-- `r{n}` -/
def repN (r : RE) (n : ℕ) : RE := .rep r n (some n)

/-- `aadhaar`: `\b(?:[2-9][0-9]{3}\s?[0-9]{4}\s?[0-9]{4})\b` -/
def aadhaarRE : RE :=
  seqL [.wb, .cls [.crange '2' '9'], repN d09 3, opt spc, repN d09 4, opt spc, repN d09 4, .wb]

/-- `pan`: `\b[A-Z]{5}[0-9]{4}[A-Z]\b` -/
def panRE : RE :=
  seqL [.wb, repN (.cls [.crange 'A' 'Z']) 5, repN d09 4, .cls [.crange 'A' 'Z'], .wb]

/-- `passport`: `\b[A-Z][0-9]{7}\b` -/
def passportRE : RE := seqL [.wb, .cls [.crange 'A' 'Z'], repN d09 7, .wb]

/-- `credit_card`:
`\b(?:4[0-9]{12}(?:[0-9]{3})?|5[1-5][0-9]{14}|3[47][0-9]{13}|6(?:011|5[0-9]{2})[0-9]{12})\b` -/
def creditCardRE : RE :=
  seqL [.wb,
    altL [seqL [.lit '4', repN d09 12, opt (repN d09 3)],
          seqL [.lit '5', .cls [.crange '1' '5'], repN d09 14],
          seqL [.lit '3', .cls [.lit '4', .lit '7'], repN d09 13],
          seqL [.lit '6', altL [strRE "011", .seq (.lit '5') (repN d09 2)], repN d09 12]],
    .wb]

/-- `email` (IGNORECASE): `\b[A-Z0-9._%+-]+@[A-Z0-9.-]+\.[A-Z]{2,}\b` -/
def emailRE : RE :=
  seqL [.wb,
    plus (.cls [.crange 'A' 'Z', .crange '0' '9', .lit '.', .lit '_', .lit '%', .lit '+', .lit '-']),
    .lit '@',
    plus (.cls [.crange 'A' 'Z', .crange '0' '9', .lit '.', .lit '-']),
    .lit '.', .rep (.cls [.crange 'A' 'Z']) 2 none, .wb]

/-- `phone`:
`\b(?:\+?91[-\s]?)?(?:(?<!\d)([6-9][0-9]{2})[-\s]?(\d{3})[-\s]?(\d{4})(?!\d))\b` -/
def phoneRE : RE :=
  seqL [.wb, opt (seqL [opt (.lit '+'), strRE "91", opt dashSp]),
    .nlbd, .grp 1 (seqL [.cls [.crange '6' '9'], repN d09 2]),
    opt dashSp, .grp 2 (repN dcls 3), opt dashSp, .grp 3 (repN dcls 4),
    .nla dcls, .wb]

/-- `ip`: `\b(?:(?:25[0-5]|2[0-4][0-9]|[01]?\d?\d)(?:\.(?!$)|$)){4}\b` -/
def ipRE : RE :=
  seqL [.wb,
    repN (.seq
      (altL [.seq (strRE "25") (.cls [.crange '0' '5']),
             seqL [.lit '2', .cls [.crange '0' '4'], d09],
             seqL [opt (.cls [.lit '0', .lit '1']), opt dcls, dcls]])
      (.alt (.seq (.lit '.') (.nla .eos)) .eos)) 4,
    .wb]

/-- `dob`: `\b(?:0?[1-9]|[12][0-9]|3[01]) SEP (?:0?[1-9]|1[0-2]) SEP (?:19\d{2}|20\d{2})\b`
where `SEP` stands for the source's character class holding a dash and a
forward slash. -/
def dobRE : RE :=
  seqL [.wb,
    altL [.seq (opt (.lit '0')) (.cls [.crange '1' '9']),
          .seq (.cls [.lit '1', .lit '2']) (.cls [.crange '0' '9']),
          .seq (.lit '3') (.cls [.lit '0', .lit '1'])],
    .cls [.lit '-', .lit '/'],
    altL [.seq (opt (.lit '0')) (.cls [.crange '1' '9']),
          .seq (.lit '1') (.cls [.crange '0' '2'])],
    .cls [.lit '-', .lit '/'],
    altL [.seq (strRE "19") (repN dcls 2), .seq (strRE "20") (repN dcls 2)],
    .wb]

/-- `bank_account` (inline `(?i)`):
`\b(?:acct|ac|account|a/c|a\\/?c\\/?|ac no\.?|account no\.?|a/c no\.?|act no\.?)[:#\s-]*([0-9]{9,18})\b`
(in the raw source string `a\\/?c\\/?` denotes literal backslashes with
optional slashes). -/
def bankAccountRE : RE :=
  seqL [.wb,
    altL [strRE "acct", strRE "ac", strRE "account", strRE "a/c",
          seqL [.lit 'a', .lit '\\', opt (.lit '/'), .lit 'c', .lit '\\', opt (.lit '/')],
          .seq (strRE "ac no") (opt (.lit '.')),
          .seq (strRE "account no") (opt (.lit '.')),
          .seq (strRE "a/c no") (opt (.lit '.')),
          .seq (strRE "act no") (opt (.lit '.'))],
    star (.cls [.lit ':', .lit '#', .space, .lit '-']),
    .grp 1 (.rep d09 9 (some 18)), .wb]

/-- `ifsc` (IGNORECASE): `\b([A-Z]{4}0[0-9A-Z]{6})\b` -/
def ifscRE : RE :=
  seqL [.wb,
    .grp 1 (seqL [repN (.cls [.crange 'A' 'Z']) 4, .lit '0',
                  repN (.cls [.crange '0' '9', .crange 'A' 'Z']) 6]),
    .wb]

/-- `address` (IGNORECASE):
`\b(?:street|st\.|road|rd\.|nagar|colony|layout|phase|block|sector)\b` -/
def addressRE : RE :=
  seqL [.wb,
    altL [strRE "street", strRE "st.", strRE "road", strRE "rd.", strRE "nagar",
          strRE "colony", strRE "layout", strRE "phase", strRE "block", strRE "sector"],
    .wb]

/-- `person_name`: `\b([A-Z][a-z]{2,}\s+[A-Z][a-z]{1,})\b` -/
def personNameRE : RE :=
  seqL [.wb,
    .grp 1 (seqL [.cls [.crange 'A' 'Z'], .rep (.cls [.crange 'a' 'z']) 2 none,
                  plus spc, .cls [.crange 'A' 'Z'], .rep (.cls [.crange 'a' 'z']) 1 none]),
    .wb]

/-- `PII_PATTERNS` from config.py, in dict insertion order, each with its
IGNORECASE flag. -/
def piiPatterns : List (String × Bool × RE) :=
  [("aadhaar", false, aadhaarRE), ("pan", false, panRE), ("passport", false, passportRE),
   ("credit_card", false, creditCardRE), ("email", true, emailRE), ("phone", false, phoneRE),
   ("ip", false, ipRE), ("dob", false, dobRE), ("bank_account", true, bankAccountRE),
   ("ifsc", true, ifscRE), ("address", true, addressRE), ("person_name", false, personNameRE)]

/-- `PLACEHOLDER_VALUES` from config.py. The source is a Python set literal,
whose iteration order is interpreter-dependent; the order here is the literal
order. All results proved below are insensitive to this order (the produced
placeholder hits have pairwise distinct sort keys or are identical). -/
def placeholderValues : List String :=
  ["0000000000", "1111111111", "1234567890", "9999999999", "ABCDE", "abcde",
   "XXXXX", "xxxxx", "N/A", "lorem ipsum", "test@example.com", "john doe", "a n other"]

/-- `\bX{4,}\b` (IGNORECASE) -/
def phXRE : RE := seqL [.wb, .rep (.lit 'X') 4 none, .wb]

/-- `\b\d{4}[-\s]?\d{4}[-\s]?\d{4}[-\s]?\d{4}\b` -/
def phDigits16RE : RE :=
  seqL [.wb, repN dcls 4, opt dashSp, repN dcls 4, opt dashSp, repN dcls 4,
    opt dashSp, repN dcls 4, .wb]

/-- `\b(?:1111|2222|3333|4444|5555|6666|7777|8888|9999){2,}\b` -/
def phRepDigRE : RE :=
  seqL [.wb,
    .rep (altL [strRE "1111", strRE "2222", strRE "3333", strRE "4444", strRE "5555",
                strRE "6666", strRE "7777", strRE "8888", strRE "9999"]) 2 none,
    .wb]

/-- `\b(?:aaa|bbb|...|zzz){2,}\b` (IGNORECASE) -/
def phRepLetRE : RE :=
  seqL [.wb,
    .rep (altL [strRE "aaa", strRE "bbb", strRE "ccc", strRE "ddd", strRE "eee",
                strRE "fff", strRE "ggg", strRE "hhh", strRE "iii", strRE "jjj",
                strRE "kkk", strRE "lll", strRE "mmm", strRE "nnn", strRE "ooo",
                strRE "ppp", strRE "qqq", strRE "rrr", strRE "sss", strRE "ttt",
                strRE "uuu", strRE "vvv", strRE "www", strRE "xxx", strRE "yyy",
                strRE "zzz"]) 2 none,
    .wb]

/-- `\bplaceholder\b` (IGNORECASE) -/
def phWordRE : RE := seqL [.wb, strRE "placeholder", .wb]

/-- `PLACEHOLDER_REGEXES` from config.py, in order, with IGNORECASE flags. -/
def placeholderRegexes : List (Bool × RE) :=
  [(true, phXRE), (false, phDigits16RE), (false, phRepDigRE), (true, phRepLetRE),
   (true, phWordRE)]

/-- The confidence 0.7 as the reduced rational 7/10, in constructor form so
that kernel evaluation can compare it. -/
def rat07 : ℚ := ⟨7, 10, by norm_num, by norm_num⟩

/-- The confidence 0.4 as the reduced rational 2/5, in constructor form. -/
def rat04 : ℚ := ⟨2, 5, by norm_num, by norm_num⟩

/-- `haystack.find(needle)`: index of the first occurrence, `none` if absent. -/
def findSub (needle : List Char) : List Char → ℕ → Option ℕ
  | hay, i =>
    if needle.isPrefixOf hay then some i
    else
      match hay with
      | [] => none
      | _ :: t => findSub needle t (i + 1)

/-- `detect_placeholders` from detection.py: case-insensitive literal search
(first occurrence per literal) plus the placeholder-shaped regexes; all hits
have label `placeholder`, confidence 0.4, sensitivity low, placeholder=true. -/
def detect_placeholders (text : String) : List Entity :=
  let cs := text.data
  let lower := cs.map Char.toLower
  let literalHits := placeholderValues.filterMap fun v =>
    match findSub (v.data.map Char.toLower) lower 0 with
    | some idx =>
      some ⟨"placeholder", idx, idx + v.data.length,
        String.mk (pySlice cs idx (idx + v.data.length)), rat04, "low", true⟩
    | none => none
  let regexHits := placeholderRegexes.flatMap fun p =>
    (findIter p.1 p.2 cs).map fun m =>
      ⟨"placeholder", m.1, m.2.1, String.mk (pySlice cs m.1 m.2.1), rat04, "low", true⟩
  literalHits ++ regexHits

/-- `detect_regex` from detection.py: run every pattern of `PII_PATTERNS`, set
`value = match.group(0)` except for `bank_account`, where
`match.lastindex` is truthy and `value = match.group(match.lastindex)` (the
captured digits) while `start`/`end` stay the full-match span; append the
placeholder hits; deduplicate. -/
def detect_regex (text : String) : List Entity :=
  let cs := text.data
  let patternHits := piiPatterns.flatMap fun pat =>
    (findIter pat.2.1 pat.2.2 cs).map fun m =>
      let label := pat.1
      let g0 := String.mk (pySlice cs m.1 m.2.1)
      let value :=
        if label = "bank_account" then
          match m.2.2.head? with
          | some g => String.mk (pySlice cs g.2.1 g.2.2)
          | none => g0
        else g0
      ⟨label, m.1, m.2.1, value,
        if label = "person_name" then rat04 else rat07,
        _score_sensitivity label, false⟩
  _deduplicate_entities (patternHits ++ detect_placeholders text)


/-- `_overlaps` is the boolean negation of the spec's pair condition. -/
theorem overlaps_eq_false_iff (a b : Entity) :
    _overlaps a b = false ↔ nonOverlapPair a b := by
  simp [_overlaps, nonOverlapPair]
  omega

/-- `nonOverlapPair` is symmetric. -/
theorem nonOverlapPair_symm {a b : Entity} (h : nonOverlapPair a b) :
    nonOverlapPair b a := h.symm

/-- The greedy scan preserves pairwise non-overlap of the accumulator. -/
theorem pruneLoop_pairwise :
    ∀ (rest acc : List Entity), acc.Pairwise nonOverlapPair →
      (pruneLoop acc rest).Pairwise nonOverlapPair := by
  intro rest
  induction rest with
  | nil => intro acc h; simpa [pruneLoop] using h
  | cons e rest ih =>
    intro acc h
    by_cases hc : (acc.any fun existing => _overlaps e existing) = true
    · simpa [pruneLoop, hc] using ih acc h
    · have hall : ∀ a ∈ acc, _overlaps e a = false := by
        intro a ha
        have := (List.any_eq_true.not).mp hc
        push_neg at this
        have h2 := this a ha
        simpa using h2
      have hpp : (acc ++ [e]).Pairwise nonOverlapPair := by
        rw [List.pairwise_append]
        refine ⟨h, List.pairwise_singleton _ _, ?_⟩
        intro a ha b hb
        have hb' : b = e := by simpa using hb
        rw [hb']
        exact nonOverlapPair_symm ((overlaps_eq_false_iff e a).mp (hall a ha))
      simpa [pruneLoop, hc] using ih (acc ++ [e]) hpp

/-- The greedy scan appends a sublist of its input to the accumulator. -/
theorem pruneLoop_append_sublist :
    ∀ (rest acc : List Entity), ∃ t, pruneLoop acc rest = acc ++ t ∧ t.Sublist rest := by
  intro rest
  induction rest with
  | nil => intro acc; exact ⟨[], by simp [pruneLoop]⟩
  | cons e rest ih =>
    intro acc
    by_cases hc : (acc.any fun existing => _overlaps e existing) = true
    · obtain ⟨t, ht, hs⟩ := ih acc
      exact ⟨t, by simpa [pruneLoop, hc] using ht, hs.cons e⟩
    · obtain ⟨t, ht, hs⟩ := ih (acc ++ [e])
      refine ⟨e :: t, ?_, hs.cons₂ e⟩
      simpa [pruneLoop, hc, List.append_assoc] using ht

/-- On a pairwise non-overlapping list the greedy scan keeps everything. -/
theorem pruneLoop_of_pairwise :
    ∀ (rest acc : List Entity), rest.Pairwise nonOverlapPair →
      (∀ a ∈ acc, ∀ b ∈ rest, _overlaps b a = false) →
      pruneLoop acc rest = acc ++ rest := by
  intro rest
  induction rest with
  | nil => intro acc _ _; simp [pruneLoop]
  | cons e rest ih =>
    intro acc hp hacc
    have hc : (acc.any fun existing => _overlaps e existing) = false := by
      rw [List.any_eq_false]
      intro a ha
      simp [hacc a ha e (by simp)]
    rw [List.pairwise_cons] at hp
    have : pruneLoop (acc ++ [e]) rest = (acc ++ [e]) ++ rest := by
      refine ih (acc ++ [e]) hp.2 ?_
      intro a ha b hb
      rcases List.mem_append.mp ha with h1 | h1
      · exact hacc a h1 b (List.mem_cons_of_mem _ hb)
      · have : a = e := by simpa using h1
        subst this
        exact (overlaps_eq_false_iff b a).mpr (nonOverlapPair_symm (hp.1 b hb))
    simp only [pruneLoop, hc, Bool.false_eq_true, if_false, this, List.append_assoc,
      List.singleton_append]

/-- The resolver's output is sorted by the Python sort key. -/
theorem dedup_sorted (l : List Entity) :
    List.Pairwise keyLe (_deduplicate_entities l) := by
  obtain ⟨t, ht, hs⟩ := pruneLoop_append_sublist (List.insertionSort keyLe l) []
  unfold _deduplicate_entities
  rw [ht]
  simpa using List.Pairwise.sublist hs (List.sorted_insertionSort keyLe l)

/-- The code's overlap test is the negated decision of the spec's pair
condition. -/
theorem overlaps_eq_not_decide (a b : Entity) :
    _overlaps a b = !(decide (nonOverlapPair a b)) := by
  by_cases h : nonOverlapPair a b
  · rw [(overlaps_eq_false_iff a b).mpr h]
    simp [h]
  · have hne : ¬(_overlaps a b = false) := fun hf => h ((overlaps_eq_false_iff a b).mp hf)
    rw [Bool.not_eq_false] at hne
    rw [hne]
    simp [h]

/-- The code's scan (`any _overlaps`) and the spec's scan
(`all non-overlapping`) coincide. -/
theorem pruneLoop_eq_greedyKeep :
    ∀ (rest acc : List Entity), pruneLoop acc rest = greedyKeep acc rest := by
  intro rest
  induction rest with
  | nil => intro acc; rfl
  | cons e rest ih =>
    intro acc
    have hcond : (acc.any fun existing => _overlaps e existing) =
        !(acc.all fun a => decide (nonOverlapPair e a)) := by
      induction acc with
      | nil => rfl
      | cons a t iht =>
        rw [List.any_cons, List.all_cons, iht, overlaps_eq_not_decide]
        simp [Bool.not_and]
    by_cases hb : (acc.all fun a => decide (nonOverlapPair e a)) = true
    · simp [pruneLoop, greedyKeep, hcond, hb, ih]
    · rw [Bool.not_eq_true] at hb
      simp [pruneLoop, greedyKeep, hcond, hb, ih]

/-- Entities with equal Python sort keys compare `keyLe` both ways. -/
theorem keyLe_of_entKey_eq {a b : Entity} (h : entKey a = entKey b) : keyLe a b := by
  have h1 : ((a.start : ℤ), -(entLen a)).1 = ((b.start : ℤ), -(entLen b)).1 :=
    congrArg Prod.fst h
  have h2 : ((a.start : ℤ), -(entLen a)).2 = ((b.start : ℤ), -(entLen b)).2 :=
    congrArg Prod.snd h
  simp only at h1 h2
  unfold keyLe entLen at *
  omega

/-- Inserting an entity whose key equals `k` prepends it to the key-`k`
subsequence: the elements it jumps over have strictly smaller keys. -/
theorem filter_orderedInsert_pos (k : ℤ × ℤ) (a : Entity) (ha : entKey a = k) :
    ∀ s : List Entity,
      (List.orderedInsert keyLe a s).filter (fun e => decide (entKey e = k)) =
        a :: s.filter (fun e => decide (entKey e = k)) := by
  intro s
  induction s with
  | nil => simp [List.orderedInsert, ha]
  | cons b t ih =>
    by_cases hab : keyLe a b
    · simp [List.orderedInsert, hab, ha]
    · have hbk : ¬(entKey b = k) := by
        intro hbk
        exact hab (keyLe_of_entKey_eq (by rw [ha, hbk]))
      simp [List.orderedInsert, hab, List.filter_cons, hbk, ih]

/-- Inserting an entity whose key differs from `k` leaves the key-`k`
subsequence unchanged. -/
theorem filter_orderedInsert_neg (k : ℤ × ℤ) (a : Entity) (ha : ¬(entKey a = k)) :
    ∀ s : List Entity,
      (List.orderedInsert keyLe a s).filter (fun e => decide (entKey e = k)) =
        s.filter (fun e => decide (entKey e = k)) := by
  intro s
  induction s with
  | nil => simp [List.orderedInsert, ha]
  | cons b t ih =>
    by_cases hab : keyLe a b
    · simp [List.orderedInsert, hab, List.filter_cons, ha]
    · simp [List.orderedInsert, hab, List.filter_cons, ih]

/-- Stability of the modelled `sorted`: for every key value, the subsequence
of entities with that exact key is preserved. -/
theorem insertionSort_filter_key (k : ℤ × ℤ) :
    ∀ l : List Entity,
      (List.insertionSort keyLe l).filter (fun e => decide (entKey e = k)) =
        l.filter (fun e => decide (entKey e = k)) := by
  intro l
  induction l with
  | nil => rfl
  | cons a t ih =>
    by_cases ha : entKey a = k
    · rw [List.insertionSort, filter_orderedInsert_pos k a ha, ih,
        List.filter_cons_of_pos (by simp [ha])]
    · rw [List.insertionSort, filter_orderedInsert_neg k a ha, ih,
        List.filter_cons_of_neg (by simp [ha])]

/-- Claim C2: every output of the Overlap Resolver (`_deduplicate_entities`)
is pairwise non-overlapping: for any two distinct positions `i`, `j` of the
output, `end_i ≤ start_j ∨ end_j ≤ start_i`. -/
theorem C2_resolver_non_overlap (l : List Entity) (i j : ℕ)
    (hi : i < (_deduplicate_entities l).length)
    (hj : j < (_deduplicate_entities l).length) (hne : i ≠ j) :
    nonOverlapPair ((_deduplicate_entities l).get ⟨i, hi⟩)
      ((_deduplicate_entities l).get ⟨j, hj⟩) := by
  have hp : (_deduplicate_entities l).Pairwise nonOverlapPair :=
    pruneLoop_pairwise (List.insertionSort keyLe l) [] List.Pairwise.nil
  rw [List.pairwise_iff_getElem] at hp
  rcases Nat.lt_or_ge i j with hlt | hge
  · simpa [List.get_eq_getElem] using hp i j hi hj hlt
  · have hlt : j < i := lt_of_le_of_ne hge (Ne.symm hne)
    exact nonOverlapPair_symm (by simpa [List.get_eq_getElem] using hp j i hj hi hlt)

/-- Witness for C2 on a concrete input with two surviving annotations. -/
theorem C2_witness :
    nonOverlapPair
      ((_deduplicate_entities
        [⟨"email", 0, 2, "ab", 7 / 10, "medium", false⟩,
         ⟨"phone", 5, 9, "cdef", 7 / 10, "medium", false⟩]).get ⟨0, by decide⟩)
      ((_deduplicate_entities
        [⟨"email", 0, 2, "ab", 7 / 10, "medium", false⟩,
         ⟨"phone", 5, 9, "cdef", 7 / 10, "medium", false⟩]).get ⟨1, by decide⟩) :=
  C2_resolver_non_overlap
    [⟨"email", 0, 2, "ab", 7 / 10, "medium", false⟩,
     ⟨"phone", 5, 9, "cdef", 7 / 10, "medium", false⟩] 0 1 (by decide) (by decide)
    (by decide)

/-- Claim C3: the Overlap Resolver computes exactly: stably sort by
(start ascending, span length descending), then greedily keep annotations that
do not overlap any already-kept one. Conjuncts: (1) `_deduplicate_entities`
is the spec's greedy scan applied to the sorted list; (2) the sorted list is a
permutation of the input; (3) it is sorted under the key comparison `keyLe`
(start ascending, length descending); (4) stability: the subsequence of
entities having any fixed sort key keeps its original (insertion) order.
Determinism is inherent: the resolver is a function of the input list. -/
theorem C3_resolver_algorithm (l : List Entity) :
    _deduplicate_entities l = greedyKeep [] (List.insertionSort keyLe l) ∧
    (List.insertionSort keyLe l).Perm l ∧
    List.Pairwise keyLe (List.insertionSort keyLe l) ∧
    ∀ k : ℤ × ℤ,
      (List.insertionSort keyLe l).filter (fun e => decide (entKey e = k)) =
        l.filter (fun e => decide (entKey e = k)) := by
  refine ⟨pruneLoop_eq_greedyKeep _ [], List.perm_insertionSort keyLe l,
    List.sorted_insertionSort keyLe l, fun k => insertionSort_filter_key k l⟩

/-- Claim C10: the Overlap Resolver is idempotent: resolving an already
resolved list returns it unchanged. -/
theorem C10_resolver_idempotent (l : List Entity) :
    _deduplicate_entities (_deduplicate_entities l) = _deduplicate_entities l := by
  have hsorted : List.Sorted keyLe (_deduplicate_entities l) := dedup_sorted l
  have hpair : (_deduplicate_entities l).Pairwise nonOverlapPair :=
    pruneLoop_pairwise (List.insertionSort keyLe l) [] List.Pairwise.nil
  show pruneLoop [] (List.insertionSort keyLe (_deduplicate_entities l)) =
    _deduplicate_entities l
  rw [hsorted.insertionSort_eq]
  simpa using pruneLoop_of_pairwise (_deduplicate_entities l) [] hpair (by simp)

/-- The scoring loop only reads `label` and `placeholder` of each entity. -/
theorem risk_score_foldl_eq (entities : List Entity) (st : RiskState) :
    entities.foldl (fun st e => riskStep st (e.label, e.placeholder)) st =
      (entities.map fun e => (e.label, e.placeholder)).foldl riskStep st := by
  induction entities generalizing st with
  | nil => rfl
  | cons e t ih => rw [List.foldl_cons, List.map_cons, List.foldl_cons, ih]

/-- One scoring step never removes a label from `unique_types`. -/
theorem riskStep_unique_mono (st : RiskState) (lp : String × Bool) (l : String)
    (h : st.uniqueTypes l = true) : (riskStep st lp).uniqueTypes l = true := by
  unfold riskStep
  by_cases hp : lp.2
  · simp [hp, h]
  · by_cases he : l = lp.1 <;> simp [hp, he, h]

/-- Folding scoring steps never removes a label from `unique_types`. -/
theorem foldl_riskStep_mono (ps : List (String × Bool)) (l : String) :
    ∀ st : RiskState, st.uniqueTypes l = true →
      (ps.foldl riskStep st).uniqueTypes l = true := by
  induction ps with
  | nil => intro st h; exact h
  | cons p t ih =>
    intro st h
    rw [List.foldl_cons]
    exact ih _ (riskStep_unique_mono st p l h)

/-- A non-placeholder occurrence of a label puts it into `unique_types`. -/
theorem riskStep_unique_set (st : RiskState) (l : String) :
    (riskStep st (l, false)).uniqueTypes l = true := by
  simp [riskStep]

/-- After the scoring loop, every label occurring non-placeholder is in
`unique_types`. -/
theorem foldl_unique_of_mem (l : String) :
    ∀ ps : List (String × Bool), (l, false) ∈ ps →
      ∀ st : RiskState, (ps.foldl riskStep st).uniqueTypes l = true := by
  intro ps
  induction ps with
  | nil => intro h; cases h
  | cons p t ih =>
    intro h st
    rw [List.foldl_cons]
    rcases List.mem_cons.mp h with he | ht
    · exact foldl_riskStep_mono t l _ (by rw [← he]; exact riskStep_unique_set st l)
    · exact ih ht _

/-- `Rat.floor` is the floor of the `FloorRing` instance. -/
theorem rat_floor_eq (q : ℚ) : q.floor = ⌊q⌋ := rfl

/-- Banker's rounding respects integer lower bounds. -/
theorem le_pyRound {n : ℤ} {q : ℚ} (h : (n : ℚ) ≤ q) : n ≤ pyRound q := by
  unfold pyRound
  have hf : n ≤ Rat.floor q := Rat.le_floor.mpr h
  split_ifs <;> omega

/-- If a critical label is present, the reported score is at least 65: the
floor raises the running score to 65, the boosters only add, and both the
rounding and the clamp to 100 keep the bound. -/
theorem riskFinish_score_ge (st : RiskState)
    (h : (["aadhaar", "credit_card", "passport", "bank_account"].any st.uniqueTypes) = true) :
    65 ≤ (riskFinish st).score := by
  unfold riskFinish
  simp only [h, if_true]
  refine le_min (by norm_num) (le_pyRound ?_)
  push_cast
  split_ifs <;> linarith [le_max_right st.score (65 : ℚ)]

/-- Claim C4 (amended: the `credit_card` entry must not be a placeholder,
since the loop skips placeholders before they can reach `unique_types`):
any annotation set containing a non-placeholder `credit_card` entry scores at
least 65. -/
theorem C4_risk_floor_amended (entities : List Entity)
    (h : ∃ e ∈ entities, e.label = "credit_card" ∧ e.placeholder = false) :
    65 ≤ (risk_score entities).score := by
  obtain ⟨e, he, hl, hp⟩ := h
  unfold risk_score
  have hmem : ("credit_card", false) ∈ entities.map fun e => (e.label, e.placeholder) :=
    List.mem_map.mpr ⟨e, he, by rw [hl, hp]⟩
  have hfold : ((entities.foldl (fun st e => riskStep st (e.label, e.placeholder))
      ⟨0, fun _ => 0, fun _ => false, 0⟩).uniqueTypes) "credit_card" = true := by
    rw [risk_score_foldl_eq]
    exact foldl_unique_of_mem "credit_card" _ hmem _
  apply riskFinish_score_ge
  simp [hfold]

/-- Counterexample to C4 as stated: an annotation set containing a
`credit_card` entry that is flagged as a placeholder scores 0, because the
scoring loop skips placeholders before the critical floor can see the label. -/
theorem C4_counterexample :
    (risk_score [⟨"credit_card", 11, 27, "4111111111111111", 7 / 10, "high", true⟩]).score
      = 0 ∧
    ¬(65 ≤ (risk_score
        [⟨"credit_card", 11, 27, "4111111111111111", 7 / 10, "high", true⟩]).score) := by
  have h : (risk_score
      [⟨"credit_card", 11, 27, "4111111111111111", 7 / 10, "high", true⟩]).score = 0 := by
    simp only [risk_score, List.foldl_cons, List.foldl_nil, riskStep, riskFinish]
    norm_num [pyRound, rat_floor_eq]
  exact ⟨h, by rw [h]; norm_num⟩

/-- Witness for C4 on a concrete non-placeholder credit card annotation. -/
theorem C4_witness :
    65 ≤ (risk_score
      [⟨"credit_card", 11, 27, "4111111111111111", 7 / 10, "high", false⟩]).score :=
  C4_risk_floor_amended
    [⟨"credit_card", 11, 27, "4111111111111111", 7 / 10, "high", false⟩] (by decide)

/-- Claim C5: diminishing returns — with base weight 5 for `email`, three
email annotations (no floor or booster applying) score
`5 + 2.5 + 0.5 = 8`: the 1st occurrence contributes 100% of the weight, the
2nd 50%, the 3rd 10%. -/
theorem C5_diminishing_returns (e1 e2 e3 : Entity)
    (h1 : e1.label = "email") (h2 : e1.placeholder = false)
    (h3 : e2.label = "email") (h4 : e2.placeholder = false)
    (h5 : e3.label = "email") (h6 : e3.placeholder = false) :
    (risk_score [e1, e2, e3]).score = 8 := by
  unfold risk_score
  rw [show [e1, e2, e3].foldl (fun st e => riskStep st (e.label, e.placeholder))
        ⟨0, fun _ => 0, fun _ => false, 0⟩ =
      riskStep (riskStep (riskStep ⟨0, fun _ => 0, fun _ => false, 0⟩
        ("email", false)) ("email", false)) ("email", false) from by
    rw [List.foldl_cons, List.foldl_cons, List.foldl_cons, List.foldl_nil,
      h1, h2, h3, h4, h5, h6]]
  simp [riskStep, riskFinish, riskWeights, pyRound, rat_floor_eq]
  norm_num

/-- Witness for C5 on three concrete email annotations. -/
theorem C5_witness :
    (risk_score
      [⟨"email", 0, 6, "a@b.co", 7 / 10, "medium", false⟩,
       ⟨"email", 10, 16, "c@d.co", 7 / 10, "medium", false⟩,
       ⟨"email", 20, 26, "e@f.co", 7 / 10, "medium", false⟩]).score = 8 :=
  C5_diminishing_returns _ _ _ rfl rfl rfl rfl rfl rfl

/-- The masking scan preserves length. -/
theorem maskTailGo_length (keep : ℕ) :
    ∀ (w : List Char) (seen : ℕ), (maskTailGo keep seen w).length = w.length := by
  intro w
  induction w with
  | nil => intro seen; rfl
  | cons c t ih =>
    intro seen
    by_cases hd : c.isDigit <;> simp [maskTailGo, hd, ih]

/-- Pointwise description of the masking scan via optional indexing:
position `i` is kept when it is not a digit, or when at most `keep` digits
(counting those already `seen`) occur up to and including it; otherwise it
becomes `*`. -/
theorem maskTailGo_getElem? (keep : ℕ) :
    ∀ (w : List Char) (seen i : ℕ),
      (maskTailGo keep seen w)[i]? = (w[i]?).map fun c =>
        if c.isDigit then
          (if seen + (w.take (i + 1)).countP Char.isDigit ≤ keep then c else '*')
        else c := by
  intro w
  induction w with
  | nil => intro seen i; rfl
  | cons c t ih =>
    intro seen i
    by_cases hd : c.isDigit
    · have hstep : maskTailGo keep seen (c :: t) =
          (if seen + 1 ≤ keep then c else '*') :: maskTailGo keep (seen + 1) t := by
        simp [maskTailGo, hd]
      cases i with
      | zero =>
        rw [hstep, List.getElem?_cons_zero, List.getElem?_cons_zero]
        simp [hd, List.countP_cons]
      | succ j =>
        rw [hstep, List.getElem?_cons_succ, List.getElem?_cons_succ, ih (seen + 1) j]
        cases h : t[j]? with
        | none => rfl
        | some c' =>
          simp only [Option.map_some', List.take_succ_cons, List.countP_cons, if_pos hd]
          have he : seen + 1 + (t.take (j + 1)).countP Char.isDigit =
              seen + ((t.take (j + 1)).countP Char.isDigit + 1) := by omega
          rw [he]
    · have hstep : maskTailGo keep seen (c :: t) = c :: maskTailGo keep seen t := by
        simp [maskTailGo, hd]
      cases i with
      | zero =>
        rw [hstep, List.getElem?_cons_zero, List.getElem?_cons_zero]
        simp [hd, List.countP_cons]
      | succ j =>
        rw [hstep, List.getElem?_cons_succ, List.getElem?_cons_succ, ih seen j]
        cases h : t[j]? with
        | none => rfl
        | some c' =>
          simp only [Option.map_some', List.take_succ_cons, List.countP_cons, if_neg hd,
            Nat.add_zero]

/-- Length invariance of `_mask_digits_keep_tail`. -/
theorem mask_digits_keep_tail_length (v : String) (keep : ℕ) :
    (_mask_digits_keep_tail v keep).length = v.length := by
  show ((maskTailGo keep 0 v.data.reverse).reverse).length = v.data.length
  rw [List.length_reverse, maskTailGo_length, List.length_reverse]

/-- Pointwise description of `_mask_digits_keep_tail`: non-digits are kept in
place; a digit is kept iff fewer than `keep` digits occur after it. -/
theorem mask_digits_keep_tail_getElem? (v : String) (keep i : ℕ)
    (hi : i < v.data.length) :
    (_mask_digits_keep_tail v keep).data[i]? = (v.data[i]?).map fun c =>
      if c.isDigit then
        (if (v.data.drop (i + 1)).countP Char.isDigit < keep then c else '*')
      else c := by
  have hmlen : (maskTailGo keep 0 v.data.reverse).length = v.data.reverse.length :=
    maskTailGo_length keep _ 0
  have hn : v.data.reverse.length = v.data.length := List.length_reverse _
  show ((maskTailGo keep 0 v.data.reverse).reverse)[i]? = _
  rw [List.getElem?_reverse (by omega : i < (maskTailGo keep 0 v.data.reverse).length),
    hmlen, hn, maskTailGo_getElem?,
    List.getElem?_reverse (by omega : v.data.length - 1 - i < v.data.length),
    show v.data.length - 1 - (v.data.length - 1 - i) = i from by omega]
  have htake : (v.data.reverse.take (v.data.length - 1 - i + 1)).countP Char.isDigit =
      (v.data.drop i).countP Char.isDigit := by
    rw [show v.data.length - 1 - i + 1 = v.data.length - i from by omega,
      List.take_reverse, List.countP_reverse,
      show v.data.length - (v.data.length - i) = i from by omega]
  rw [htake, List.getElem?_eq_getElem hi]
  have hdrop : v.data.drop i = v.data[i] :: v.data.drop (i + 1) :=
    List.drop_eq_getElem_cons hi
  rw [Option.map_some', Option.map_some', hdrop, List.countP_cons]
  by_cases hdig : (v.data[i]).isDigit
  · rw [if_pos hdig, if_pos hdig, if_pos hdig]
    by_cases hcnt : (v.data.drop (i + 1)).countP Char.isDigit < keep
    · rw [if_pos (by omega :
          0 + ((v.data.drop (i + 1)).countP Char.isDigit + 1) ≤ keep), if_pos hcnt]
    · rw [if_neg (by omega :
          ¬(0 + ((v.data.drop (i + 1)).countP Char.isDigit + 1) ≤ keep)), if_neg hcnt]
  · rw [if_neg hdig, if_neg hdig]

/-- Claim C9: `mask_value(v, "phone", "partial")` preserves the length of `v`;
every non-digit character is kept in place, the last 3 digits are kept, and
every earlier digit becomes a single `*`. -/
theorem C9_partial_phone_mask (v : String) (ctr : ℕ) :
    ((mask_value v "phone" "partial" ctr).1).length = v.length ∧
    ∀ (i : ℕ) (c : Char), v.data[i]? = some c →
      ((mask_value v "phone" "partial" ctr).1).data[i]? =
        some (if c.isDigit then
          (if (v.data.drop (i + 1)).countP Char.isDigit < 3 then c else '*')
        else c) := by
  have hmv : (mask_value v "phone" "partial" ctr).1 = _mask_digits_keep_tail v 3 := rfl
  rw [hmv]
  refine ⟨mask_digits_keep_tail_length v 3, ?_⟩
  intro i c hc
  have hi : i < v.data.length := (List.getElem?_eq_some_iff.mp hc).1
  rw [mask_digits_keep_tail_getElem? v 3 i hi, hc, Option.map_some']

/-- Witness for C9 on `v = "98-76"`: length is preserved and the first digit
(with three later digits) is starred out. -/
theorem C9_witness :
    ((mask_value "98-76" "phone" "partial" 0).1).length = "98-76".length ∧
    ((mask_value "98-76" "phone" "partial" 0).1).data[0]? =
      some (if ('9').isDigit then
        (if ("98-76".data.drop (0 + 1)).countP Char.isDigit < 3 then '9' else '*')
      else '9') :=
  ⟨(C9_partial_phone_mask "98-76" 0).1,
   (C9_partial_phone_mask "98-76" 0).2 0 '9' (by decide)⟩

/-- The code's first skip test (Python truthiness of `allowed_labels` plus
`not in`) decides the spec's allow-list condition. -/
theorem maskSkip_cond1_iff (e : Entity) (allowed : Option (List String)) :
    ((match allowed with
      | some ls => !ls.isEmpty && !ls.contains e.label
      | none => false) = true) ↔
      (match allowed with
       | some ls => ls ≠ [] ∧ e.label ∉ ls
       | none => False) := by
  cases allowed with
  | none => simp
  | some ls => simp [List.isEmpty_iff]

/-- The filtering loop of `apply_masks` equals the unfiltered splice loop on
the sublist of annotations the spec says survive. -/
theorem maskLoop_eq_spliceAll (mode : String) (inc : Bool)
    (allowed : Option (List String)) :
    ∀ (l : List Entity) (masked : String) (ctr : ℕ),
      maskLoop mode inc allowed l masked ctr =
        spliceAll mode (l.filter fun e => !decide (maskSkipSpec e inc allowed)) masked ctr := by
  cases allowed with
  | none =>
    intro l
    induction l with
    | nil => intro masked ctr; rfl
    | cons e t ih =>
      intro masked ctr
      by_cases hc2 : (e.placeholder && !inc) = true
      · have hskip : maskSkipSpec e inc none := by
          rw [Bool.and_eq_true, Bool.not_eq_true'] at hc2
          exact Or.inr hc2
        rw [show (e :: t).filter (fun e => !decide (maskSkipSpec e inc none)) =
            t.filter (fun e => !decide (maskSkipSpec e inc none)) from by simp [hskip]]
        simp only [maskLoop, Bool.false_eq_true, if_false, hc2, if_true]
        exact ih masked ctr
      · have hskip : ¬maskSkipSpec e inc none := by
          intro h
          rcases h with h | h
          · exact h
          · rw [Bool.and_eq_true, Bool.not_eq_true'] at hc2
            exact hc2 h
        rw [show (e :: t).filter (fun e => !decide (maskSkipSpec e inc none)) =
            e :: t.filter (fun e => !decide (maskSkipSpec e inc none)) from by simp [hskip]]
        rw [Bool.not_eq_true] at hc2
        simp only [maskLoop, Bool.false_eq_true, if_false, hc2, spliceAll]
        exact ih _ _
  | some ls =>
    intro l
    induction l with
    | nil => intro masked ctr; rfl
    | cons e t ih =>
      intro masked ctr
      by_cases hc1 : (!ls.isEmpty && !ls.contains e.label) = true
      · have hskip : maskSkipSpec e inc (some ls) := by
          refine Or.inl ?_
          rw [Bool.and_eq_true] at hc1
          constructor
          · simpa [List.isEmpty_iff] using hc1.1
          · simpa using hc1.2
        rw [show (e :: t).filter (fun e => !decide (maskSkipSpec e inc (some ls))) =
            t.filter (fun e => !decide (maskSkipSpec e inc (some ls))) from by simp [hskip]]
        simp only [maskLoop, hc1, if_true]
        exact ih masked ctr
      · by_cases hc2 : (e.placeholder && !inc) = true
        · have hskip : maskSkipSpec e inc (some ls) := by
            rw [Bool.and_eq_true, Bool.not_eq_true'] at hc2
            exact Or.inr hc2
          rw [show (e :: t).filter (fun e => !decide (maskSkipSpec e inc (some ls))) =
              t.filter (fun e => !decide (maskSkipSpec e inc (some ls))) from by simp [hskip]]
          rw [Bool.not_eq_true] at hc1
          simp only [maskLoop, hc1, Bool.false_eq_true, if_false, hc2, if_true]
          exact ih masked ctr
        · have hskip : ¬maskSkipSpec e inc (some ls) := by
            intro h
            rcases h with h | h
            · exact hc1 (by simp [List.isEmpty_iff, h.1, h.2])
            · rw [Bool.and_eq_true, Bool.not_eq_true'] at hc2
              exact hc2 h
          rw [show (e :: t).filter (fun e => !decide (maskSkipSpec e inc (some ls))) =
              e :: t.filter (fun e => !decide (maskSkipSpec e inc (some ls))) from by
            simp [hskip]]
          rw [Bool.not_eq_true] at hc1 hc2
          simp only [maskLoop, hc1, hc2, Bool.false_eq_true, if_false, spliceAll]
          exact ih _ _

/-- Claim C8: `apply_masks` leaves an annotation unmasked iff `allowed_labels`
is supplied and non-empty and the annotation's label is not in it, or the
annotation is a placeholder and `include_placeholders` is false (first
conjunct: the surviving annotations are exactly the spec's filter); hence a
text whose detected annotations are all placeholders is returned unchanged
under `include_placeholders = false` (second conjunct). -/
theorem C8_mask_filtering :
    (∀ (text : String) (entities : List Entity) (mode : String) (inc : Bool)
      (allowed : Option (List String)) (ctr : ℕ),
      apply_masks text entities mode inc allowed ctr =
        spliceAll mode ((List.insertionSort startGe entities).filter
          fun e => !decide (maskSkipSpec e inc allowed)) text ctr) ∧
    (∀ (text : String) (mode : String) (allowed : Option (List String)) (ctr : ℕ),
      (∀ e ∈ detect_regex text, e.placeholder = true) →
      apply_masks text (detect_regex text) mode false allowed ctr = (text, ctr)) := by
  constructor
  · intro text entities mode inc allowed ctr
    exact maskLoop_eq_spliceAll mode inc allowed _ text ctr
  · intro text mode allowed ctr hall
    rw [apply_masks, maskLoop_eq_spliceAll]
    have hfil : ((List.insertionSort startGe (detect_regex text)).filter
        fun e => !decide (maskSkipSpec e false allowed)) = [] := by
      rw [List.filter_eq_nil_iff]
      intro e he
      have hmem : e ∈ detect_regex text :=
        ((List.perm_insertionSort startGe (detect_regex text)).mem_iff).mp he
      simp [maskSkipSpec, hall e hmem]
    rw [hfil]
    rfl

/-- Witness for C8: `detect_regex "xxxxx"` yields only placeholder hits and
full masking with `include_placeholders = false` leaves the text unchanged. -/
theorem C8_witness :
    apply_masks "xxxxx" (detect_regex "xxxxx") "full" false none 0 = ("xxxxx", 0) :=
  C8_mask_filtering.2 "xxxxx" "full" none 0 (by decide)

/-- `Nat.digitChar` of a value below 10 is a decimal digit character. -/
theorem digitChar_isDigit {d : ℕ} (h : d < 10) : (Nat.digitChar d).isDigit = true := by
  have hall : ∀ d, d < 10 → (Nat.digitChar d).isDigit = true := by decide
  exact hall d h

/-- `int(d)` inverts `Nat.digitChar` below 10. -/
theorem charVal_digitChar {d : ℕ} (h : d < 10) : charVal (Nat.digitChar d) = d := by
  have hall : ∀ d, d < 10 → charVal (Nat.digitChar d) = d := by decide
  exact hall d h

/-- All characters of `str(n)` are decimal digits. -/
theorem natDecimal_digits (n : ℕ) : ∀ c ∈ natDecimal n, c.isDigit = true := by
  intro c hc
  unfold natDecimal at hc
  by_cases h0 : n = 0
  · simp only [h0, if_true] at hc
    rw [List.mem_singleton.mp hc]
    decide
  · simp only [h0, if_false, List.mem_map, List.mem_reverse] at hc
    obtain ⟨d, hd, hdc⟩ := hc
    rw [← hdc]
    exact digitChar_isDigit (Nat.digits_lt_base (by norm_num) hd)

/-- All characters of `_pad_digits` are decimal digits. -/
theorem pad_digits_isDigit (counter length : ℕ) :
    ∀ c ∈ _pad_digits counter length, c.isDigit = true := by
  intro c hc
  unfold _pad_digits at hc
  split_ifs at hc
  · rcases List.mem_append.mp hc with h | h
    · rw [List.eq_of_mem_replicate h]
      decide
    · exact natDecimal_digits counter c h
  · exact natDecimal_digits counter c (List.mem_of_mem_drop hc)
  · exact natDecimal_digits counter c hc

/-- `_pad_digits` always has exactly the requested length. -/
theorem pad_digits_length (counter length : ℕ) :
    (_pad_digits counter length).length = length := by
  unfold _pad_digits
  split_ifs with h1 h2
  · simp only [List.length_append, List.length_replicate]
    omega
  · simp only [List.length_drop]
    omega
  · omega

/-- The digit-filling walk of `_regroup_like_original` emits exactly the
synthetic digits (in order) as the digit subsequence of its output, provided
the synthetic string is all digits. -/
theorem regroupGo_filter :
    ∀ (orig synth : List Char), (∀ c ∈ synth, c.isDigit = true) →
      ((regroupGo orig synth).1 ++ (regroupGo orig synth).2).filter Char.isDigit = synth := by
  intro orig
  induction orig with
  | nil =>
    intro synth h
    simp only [regroupGo, List.nil_append]
    exact List.filter_eq_self.mpr h
  | cons c rest ih =>
    intro synth h
    by_cases hd : c.isDigit
    · cases synth with
      | nil => simpa [regroupGo, hd] using ih [] (by simp)
      | cons d ds =>
        have hds : ∀ x ∈ ds, x.isDigit = true := fun x hx => h x (List.mem_cons_of_mem _ hx)
        have hdd : d.isDigit = true := h d (List.mem_cons_self _ _)
        simp [regroupGo, hd, List.filter_cons, hdd, ih ds hds]
    · simp [regroupGo, hd, List.filter_cons, ih synth h]

/-- `_regroup_like_original` preserves the digit sequence of an all-digit
non-empty synthetic value. -/
theorem regroup_filter (synth orig : List Char)
    (hs : ∀ c ∈ synth, c.isDigit = true) (hne : synth ≠ []) :
    (_regroup_like_original synth orig).filter Char.isDigit = synth := by
  unfold _regroup_like_original
  have hf := regroupGo_filter orig synth hs
  have hany : ((regroupGo orig synth).1 ++ (regroupGo orig synth).2).any Char.isDigit
      = true := by
    rcases hd : synth with _ | ⟨d, ds⟩
    · exact absurd hd hne
    · rw [hd] at hf
      have hmem : d ∈ ((regroupGo orig (d :: ds)).1 ++
          (regroupGo orig (d :: ds)).2).filter Char.isDigit := by
        rw [hf]
        exact List.mem_cons_self _ _
      obtain ⟨hm, hdig⟩ := List.mem_filter.mp hmem
      exact List.any_eq_true.mpr ⟨d, hm, hdig⟩
  simp only [hany, if_true]
  exact hf

/-- Appending the check digit lets the validation sum start undoubled at it:
the doubled positions of the full number are exactly those doubled when the
check digit was computed. -/
theorem luhnSum_append_check (ds : List ℕ) (check : ℕ) :
    luhnSum false ((ds ++ [check]).reverse) = check + luhnSum true ds.reverse := by
  rw [List.reverse_append, List.reverse_singleton, List.singleton_append]
  rfl

/-- Claim C6: every synthetic credit-card value has a digit sequence of
exactly 16 digits, and that sequence passes the Luhn checksum: doubling every
second digit from the right (reducing doubles above 9 by 9) and summing gives
a total divisible by 10. -/
theorem C6_synthetic_luhn (counter : ℕ) (original : String) :
    ((_synthetic_card counter original).data.filter Char.isDigit).length = 16 ∧
    (luhnSum false ((((_synthetic_card counter original).data.filter
      Char.isDigit).map charVal).reverse)) % 10 = 0 := by
  have hbd : ∀ c ∈ '4' :: _pad_digits counter 14, c.isDigit = true := by
    intro c hc
    rcases List.mem_cons.mp hc with h | h
    · rw [h]; decide
    · exact pad_digits_isDigit counter 14 c h
  have hck : _luhn_check_digit ('4' :: _pad_digits counter 14) < 10 :=
    Nat.mod_lt _ (by norm_num)
  have hnd : ∀ c ∈ ('4' :: _pad_digits counter 14) ++
      [Nat.digitChar (_luhn_check_digit ('4' :: _pad_digits counter 14))],
      c.isDigit = true := by
    intro c hc
    rcases List.mem_append.mp hc with h | h
    · exact hbd c h
    · rw [List.mem_singleton.mp h]
      exact digitChar_isDigit hck
  have hfil : (_synthetic_card counter original).data.filter Char.isDigit =
      ('4' :: _pad_digits counter 14) ++
        [Nat.digitChar (_luhn_check_digit ('4' :: _pad_digits counter 14))] := by
    show (_regroup_like_original _ original.data).filter Char.isDigit = _
    exact regroup_filter _ original.data hnd (by simp)
  constructor
  · rw [hfil]
    simp [pad_digits_length]
  · rw [hfil, List.map_append, List.map_singleton, charVal_digitChar hck,
      luhnSum_append_check]
    have hcheck : _luhn_check_digit ('4' :: _pad_digits counter 14) =
        (10 - (luhnSum true ((('4' :: _pad_digits counter 14).map charVal).reverse)) % 10)
          % 10 := rfl
    rw [hcheck]
    omega

/-- `rat07` is 7/10. -/
theorem rat07_eq : rat07 = 7 / 10 := by
  rw [rat07, Rat.mk'_eq_divInt, Rat.divInt_eq_div]
  norm_num

/-- `rat04` is 2/5. -/
theorem rat04_eq : rat04 = 2 / 5 := by
  rw [rat04, Rat.mk'_eq_divInt, Rat.divInt_eq_div]
  norm_num

/-- Resolver output is a subset of its input. -/
theorem mem_dedup {e : Entity} {l : List Entity}
    (h : e ∈ _deduplicate_entities l) : e ∈ l := by
  obtain ⟨t, ht, hs⟩ := pruneLoop_append_sublist (List.insertionSort keyLe l) []
  unfold _deduplicate_entities at h
  rw [ht, List.nil_append] at h
  exact ((List.perm_insertionSort keyLe l).mem_iff).mp (hs.subset h)

/-- Claim C1 (amended: the offset equality holds for every label except
`bank_account`; for `bank_account` the code keeps the full-match span as
`start`/`end` while `value` is the captured digits, so `text[start:end]` can
properly contain `value` — see the counterexample): for every annotation of
`detect_regex` whose label is not `bank_account`,
`text[start:end] == value`. -/
theorem C1_offset_validity_amended (text : String) (e : Entity)
    (hmem : e ∈ detect_regex text) (hlabel : e.label ≠ "bank_account") :
    e.value = String.mk (pySlice text.data e.start e.end_) := by
  have hmem' : e ∈ (piiPatterns.flatMap fun pat =>
      (findIter pat.2.1 pat.2.2 text.data).map fun m =>
        ⟨pat.1, m.1, m.2.1,
          (if pat.1 = "bank_account" then
            match m.2.2.head? with
            | some g => String.mk (pySlice text.data g.2.1 g.2.2)
            | none => String.mk (pySlice text.data m.1 m.2.1)
          else String.mk (pySlice text.data m.1 m.2.1)),
          (if pat.1 = "person_name" then rat04 else rat07),
          _score_sensitivity pat.1, false⟩) ++ detect_placeholders text :=
    mem_dedup hmem
  rcases List.mem_append.mp hmem' with hp | hph
  · obtain ⟨pat, _hpat, hin⟩ := List.mem_flatMap.mp hp
    obtain ⟨m, _hm, heq⟩ := List.mem_map.mp hin
    have hlab : pat.1 ≠ "bank_account" := by
      rw [← heq] at hlabel
      simpa using hlabel
    rw [← heq]
    simp [if_neg hlab]
  · have hph' : e ∈ (placeholderValues.filterMap fun v =>
        match findSub (v.data.map Char.toLower) (text.data.map Char.toLower) 0 with
        | some idx =>
          some ⟨"placeholder", idx, idx + v.data.length,
            String.mk (pySlice text.data idx (idx + v.data.length)), rat04, "low", true⟩
        | none => none) ++
        (placeholderRegexes.flatMap fun p =>
          (findIter p.1 p.2 text.data).map fun m =>
            ⟨"placeholder", m.1, m.2.1, String.mk (pySlice text.data m.1 m.2.1), rat04,
              "low", true⟩) := hph
    rcases List.mem_append.mp hph' with h1 | h2
    · obtain ⟨v, _hv, hfv⟩ := List.mem_filterMap.mp h1
      cases hfind : findSub (v.data.map Char.toLower) (text.data.map Char.toLower) 0 with
      | none =>
        rw [hfind] at hfv
        cases hfv
      | some idx =>
        rw [hfind] at hfv
        have heq := Option.some.inj hfv
        rw [← heq]
    · obtain ⟨p, _hp, hin⟩ := List.mem_flatMap.mp h2
      obtain ⟨m, _hm, heq⟩ := List.mem_map.mp hin
      rw [← heq]

/-- Counterexample to C1 as stated: on `"ac 123456789"` the single annotation
is `bank_account` with the full-match span `[0, 12)` but the captured value
`"123456789"`, so `text[start:end] ≠ value`. -/
theorem C1_counterexample :
    ((detect_regex "ac 123456789").map fun e => (e.label, e.start, e.end_, e.value)) =
      [("bank_account", 0, 12, "123456789")] ∧
    String.mk (pySlice "ac 123456789".data 0 12) ≠ "123456789" := by
  constructor
  · decide
  · decide

/-- Witness for C1 on `"a@b.co"`, whose one annotation is an email. -/
theorem C1_witness :
    (⟨"email", 0, 6, "a@b.co", rat07, "medium", false⟩ : Entity).value =
      String.mk (pySlice "a@b.co".data
        (⟨"email", 0, 6, "a@b.co", rat07, "medium", false⟩ : Entity).start
        (⟨"email", 0, 6, "a@b.co", rat07, "medium", false⟩ : Entity).end_) :=
  C1_offset_validity_amended "a@b.co"
    ⟨"email", 0, 6, "a@b.co", rat07, "medium", false⟩ (by decide) (by decide)

/-- Claim C7: on `"My card is 4111111111111111, email test@example.com"` in
regex mode, detection returns exactly two annotations, labelled `credit_card`
and `email` (all placeholder candidates are suppressed by the resolver), and
full-mode masking yields `"My card is [CARD], email [EMAIL]"`. -/
theorem C7_scenario :
    ((detect_regex "My card is 4111111111111111, email test@example.com").map
      Entity.label) = ["credit_card", "email"] ∧
    (apply_masks "My card is 4111111111111111, email test@example.com"
      (detect_regex "My card is 4111111111111111, email test@example.com")
      "full" false none 1).1 = "My card is [CARD], email [EMAIL]" := by
  constructor
  · decide
  · decide
